import Mathlib

/-!
# A shallow embedding of `trading/supper_simple_stock_market.py`

The Python module defines four components:

* `Stock` — valuation object computing dividend yield and P/E ratio;
* `Trade` — record of one executed trade;
* `StockMarket` — a class whose instances all alias one class-level trade
  book (`__trades`), with `book_trade` and `calculate_VWSP`;
* `GlobalBeverageCorporationExchange` — subclass computing the all-share
  index as the geometric mean of per-trade all-time VWSP values.

Modelling choices:

* Python `int` prices/quantities become `ℤ`; true division becomes `ℚ`
  division guarded by a `DivisionByZero` error (Python raises
  `ZeroDivisionError` on `0 / 0` of ints).
* `datetime` timestamps become `ℤ` (in minutes); `datetime.now()` becomes an
  explicit `now` parameter, and `now - timedelta(minutes=m)` becomes
  `now - m`.
* Python `round(x, 4)` is round-half-to-even on the fourth decimal,
  embedded exactly on `ℚ` as `round4`.
* The single class-level trade book shared by every instance becomes one
  explicit `Book` value threaded through the operations; instances hold no
  state of their own (in the source, `__new__` stores only an alias
  `instance._trades = cls.__trades`).
* `raise ValueError` becomes `Except MarketError` (for the mutator
  `book_trade`, a pair of an optional error and the resulting book, so that
  "the book is unchanged on failure" is directly expressible).
* The float power `prod ** (1 / len(prices))` in `all_stock_index` is real
  valued; the function is embedded as a relation between the book and the
  returned value, with rounding to 4 decimals specified as "within half an
  ulp of 10⁻⁴" (`isRound4R`).
-/

deriving instance DecidableEq for Except

namespace SSSM

/-- Errors raised by the Python code (`ValueError` with distinct messages,
plus `ZeroDivisionError` from `price_qty / sum_qty` when `sum_qty == 0`). -/
inductive MarketError where
  | invalidArgument
  | emptyMarket
  | divisionByZero
deriving DecidableEq, Repr

/-- `Stock.__init__(symbol, par_value, stock_type, last_dividend=0,
fixed_dividend=0.0)`.  `last_dividend` and `fixed_dividend` may be `None`
in Python (the code tests `is not None`), hence `Option`. -/
structure Stock where
  symbol : String
  par_value : ℤ
  type : String
  last_dividend : Option ℤ := some 0
  fixed_dividend : Option ℚ := some 0
deriving DecidableEq, Repr

/-- Round-half-to-even to an integer, the semantics of Python `round`. -/
def roundHalfEven (q : ℚ) : ℤ :=
  let n := ⌊q⌋
  if q - n < 1/2 then n
  else if 1/2 < q - n then n + 1
  else if n % 2 = 0 then n else n + 1

/-- Python `round(x, 4)`. -/
def round4 (q : ℚ) : ℚ := (roundHalfEven (q * 10000) : ℚ) / 10000

/-- `Stock.get_dividend_yield(price)`.  The Python function returns a
`float` on the explicit `return` paths and falls through (returning `None`)
when the relevant dividend field is `None`; the result type is therefore
`Option ℚ`. -/
def Stock.get_dividend_yield (s : Stock) (price : ℤ) :
    Except MarketError (Option ℚ) :=
  if price ≤ 0 then .error .invalidArgument
  else if s.type = "Preferred" then
    match s.fixed_dividend with
    | some fd =>
        .ok (some (if fd ≤ 0 then 0
                   else round4 ((fd * (s.par_value : ℚ)) / (price : ℚ))))
    | none => .ok none
  else
    match s.last_dividend with
    | some ld =>
        .ok (some (if ld ≤ 0 then 0
                   else round4 ((ld : ℚ) / (price : ℚ))))
    | none => .ok none

/-- `Trade.__init__(stock, timestamp, quantity, buy_or_sell, price)`. -/
structure Trade where
  stock : Stock
  timestamp : ℤ
  quantity : ℤ
  buy_or_sell : String
  price : ℤ
deriving DecidableEq, Repr

/-- The shared class-level trade book `StockMarket.__trades`: an ordered
list of `(timestamp, Trade)` pairs, append-only. -/
abbrev Book := List (ℤ × Trade)

/-- `StockMarket.book_trade(stock, buy_or_sell, quantity=0, price=0)`.
Returns the error (if any) together with the resulting book; on a
validation failure the book is returned unchanged, since the Python code
raises before touching `cls.__trades`. -/
def book_trade (book : Book) (stock : Stock) (buy_or_sell : String)
    (quantity price : ℤ) (now : ℤ) : Option MarketError × Book :=
  if quantity < 1 ∨ price < 1 then (some .invalidArgument, book)
  else
    (none, book ++ [(now, { stock := stock, timestamp := now,
                            quantity := quantity,
                            buy_or_sell := buy_or_sell, price := price })])

/-- The list comprehension selecting trades in `calculate_VWSP`: for
`minutes > 0` it scans `reversed(cls.__trades)` keeping entries with
`trade[0] >= now - minutes` and matching symbol; otherwise it scans the
book in order keeping entries with matching symbol. -/
def selectedTrades (book : Book) (symbol : String) (minutes now : ℤ) :
    List Trade :=
  if 0 < minutes then
    (book.reverse.filter
      (fun e => decide (now - minutes ≤ e.1 ∧ e.2.stock.symbol = symbol))).map
      (fun e => e.2)
  else
    (book.filter (fun e => decide (e.2.stock.symbol = symbol))).map
      (fun e => e.2)

/-- `StockMarket.calculate_VWSP(symbol, minutes=5)`.  Raises on an empty
book; divides `sum(price*quantity)` by `sum(quantity)` over the selected
trades (a `ZeroDivisionError` when the latter is zero) and rounds to 4
decimals. -/
def calculate_VWSP (book : Book) (symbol : String) (minutes now : ℤ) :
    Except MarketError ℚ :=
  if book.length = 0 then .error .emptyMarket
  else
    let trades := selectedTrades book symbol minutes now
    let price_qty : ℤ := (trades.map (fun t => t.price * t.quantity)).sum
    let sum_qty : ℤ := (trades.map (fun t => t.quantity)).sum
    if sum_qty = 0 then .error .divisionByZero
    else .ok (round4 ((price_qty : ℚ) / (sum_qty : ℚ)))

/-- The list comprehension in `all_stock_index`:
`[self.calculate_VWSP(trade[1].stock.symbol, 0) for trade in
super().__new__(StockMarket)._trades]`, over the current shared book, with
any exception propagating. -/
def indexPricesE (book : Book) (now : ℤ) : Except MarketError (List ℚ) :=
  book.mapM (fun e => calculate_VWSP book e.2.stock.symbol 0 now)

/-- Rounding a real to 4 decimals, specified relationally: `r` is an
integer multiple of `10⁻⁴` within half an ulp of `x` (either side of an
exact tie is admitted, absorbing the float round-trip of the source). -/
def isRound4R (x r : ℝ) : Prop :=
  ∃ k : ℤ, r = (k : ℝ) / 10000 ∧ |(k : ℝ) - x * 10000| ≤ 1/2

/-- `GlobalBeverageCorporationExchange.all_stock_index()` as a relation
between the current shared book and the returned value: the emptiness
check on `self._trades`, then the per-trade VWSP list (any error
propagating), then `round(prod ** (1 / len(prices)), 4)`. -/
def all_stock_index (book : Book) (now : ℤ) (r : Except MarketError ℝ) :
    Prop :=
  if book.length = 0 then r = .error .emptyMarket
  else
    match indexPricesE book now with
    | .error e => r = .error e
    | .ok prices =>
        ∃ v : ℝ, r = .ok v ∧
          isRound4R
            (((prices.map (fun q : ℚ => (q : ℝ))).prod) ^
              ((1 : ℝ) / (prices.length : ℝ))) v

/-! ## Specification-side formulations (from the spec's words, for
refinement statements) -/

/-- The spec's selection criterion for one entry: for `minutes > 0` the
entry's timestamp is at least `now - minutes` and its symbol matches; for
`minutes ≤ 0` only the symbol has to match. -/
def keepEntry (symbol : String) (minutes now : ℤ) (e : ℤ × Trade) : Bool :=
  if 0 < minutes then
    decide (now - minutes ≤ e.1 ∧ e.2.stock.symbol = symbol)
  else decide (e.2.stock.symbol = symbol)

/-- The spec's selection policy for `calculate_VWSP`, as a set described in
booking order (no reversed scan): exactly the entries satisfying
`keepEntry`. -/
def specSelected (book : Book) (symbol : String) (minutes now : ℤ) :
    List Trade :=
  (book.filter (keepEntry symbol minutes now)).map (fun e => e.2)

/-- The spec's VWSP formula `round(Σ(price × quantity) / Σ(quantity), 4)`
over a selection, as a total function on the selected list. -/
def specVWSP (trades : List Trade) : ℚ :=
  round4 ((((trades.map (fun t => t.price * t.quantity)).sum : ℤ) : ℚ) /
          (((trades.map (fun t => t.quantity)).sum : ℤ) : ℚ))

/-- The all-time VWSP of a symbol (`minutes = 0`), as a total function:
the value `calculate_VWSP` returns for that symbol on a book where the
division succeeds. -/
def allTimeVWSP (book : Book) (symbol : String) : ℚ :=
  specVWSP (specSelected book symbol 0 0)

/-- The book invariant: every entry's trade has price ≥ 1 and
quantity ≥ 1. -/
def BookInv (book : Book) : Prop :=
  ∀ e ∈ book, 1 ≤ e.2.price ∧ 1 ≤ e.2.quantity

/-- Two books identical except possibly in the `buy_or_sell` field of
their trades. -/
def sameExceptSide : Book → Book → Bool
  | [], [] => true
  | e1 :: r1, e2 :: r2 =>
      e1.1 = e2.1 ∧ e1.2.stock = e2.2.stock ∧
      e1.2.timestamp = e2.2.timestamp ∧ e1.2.quantity = e2.2.quantity ∧
      e1.2.price = e2.2.price ∧ sameExceptSide r1 r2 = true
  | _, _ => false

/-! ## Concrete data for instantiations -/

/-- A sample Common stock (from the repository's test fixtures). -/
def aleStock : Stock := ⟨"ALE", 60, "Common", some 23, some 0⟩

/-- A sample Common stock with zero last dividend. -/
def teaStock : Stock := ⟨"TEA", 100, "Common", some 0, some 0⟩

/-- Five trades for symbol ALE, quantity 10 each, price 100 each, all with
timestamps within the 5-minute window ending at time 100 (the spec's VWSP
test vector). -/
def demoBook : Book :=
  [(96, ⟨aleStock, 96, 10, "Buy", 100⟩),
   (97, ⟨aleStock, 97, 10, "Buy", 100⟩),
   (98, ⟨aleStock, 98, 10, "Buy", 100⟩),
   (99, ⟨aleStock, 99, 10, "Buy", 100⟩),
   (100, ⟨aleStock, 100, 10, "Buy", 100⟩)]

/-- A one-trade book: ALE bought, quantity 10, price 100, at time 0. -/
def wBookBuy : Book := [(0, ⟨aleStock, 0, 10, "Buy", 100⟩)]

/-- The same book with the side flipped to Sell. -/
def wBookSell : Book := [(0, ⟨aleStock, 0, 10, "Sell", 100⟩)]

/-- A one-trade book: TEA bought, quantity 3, price 90, at time 0. -/
def wBookTea : Book := [(0, ⟨teaStock, 0, 3, "Buy", 90⟩)]

/-! ## Helper lemmas -/

theorem roundHalfEven_intCast (m : ℤ) : roundHalfEven ((m : ℚ)) = m := by
  unfold roundHalfEven
  norm_num [Int.floor_intCast]

theorem round4_intCast (n : ℤ) : round4 ((n : ℚ)) = (n : ℚ) := by
  unfold round4
  have h : ((n : ℚ)) * 10000 = (((n * 10000 : ℤ) : ℚ)) := by push_cast; ring
  rw [h, roundHalfEven_intCast]
  push_cast
  ring

theorem keepEntry_pos (symbol : String) (minutes now : ℤ)
    (hm : 0 < minutes) :
    keepEntry symbol minutes now =
      fun e => decide (now - minutes ≤ e.1 ∧ e.2.stock.symbol = symbol) := by
  funext e
  simp [keepEntry, hm]

theorem keepEntry_nonpos (symbol : String) (minutes now : ℤ)
    (hm : ¬ 0 < minutes) :
    keepEntry symbol minutes now =
      fun e => decide (e.2.stock.symbol = symbol) := by
  funext e
  simp [keepEntry, hm]

/-- The code's reversed scan produces the spec's selection, reversed for
`minutes > 0` and as-is otherwise. -/
theorem selectedTrades_eq (book : Book) (symbol : String) (minutes now : ℤ) :
    selectedTrades book symbol minutes now =
      if 0 < minutes then (specSelected book symbol minutes now).reverse
      else specSelected book symbol minutes now := by
  by_cases hm : 0 < minutes
  · rw [if_pos hm]
    simp [selectedTrades, specSelected, keepEntry_pos symbol minutes now hm,
      hm, List.filter_reverse, List.map_reverse]
  · rw [if_neg hm]
    simp [selectedTrades, specSelected,
      keepEntry_nonpos symbol minutes now hm, hm]

/-- Sums of any per-trade quantity agree between the code's scan order and
the spec's selection. -/
theorem selected_map_sum (f : Trade → ℤ) (book : Book) (symbol : String)
    (minutes now : ℤ) :
    ((selectedTrades book symbol minutes now).map f).sum =
      ((specSelected book symbol minutes now).map f).sum := by
  rw [selectedTrades_eq]
  by_cases hm : 0 < minutes <;>
    simp [hm, List.map_reverse, List.sum_reverse]

/-- The code's selection is empty exactly when the spec's is. -/
theorem selected_nil_iff (book : Book) (symbol : String) (minutes now : ℤ) :
    selectedTrades book symbol minutes now = [] ↔
      specSelected book symbol minutes now = [] := by
  rw [selectedTrades_eq]
  by_cases hm : 0 < minutes <;> simp [hm]

/-- `calculate_VWSP` on a non-empty book with a selection of non-zero
total quantity returns the spec's formula over the spec's selection. -/
theorem vwsp_ok (book : Book) (symbol : String) (minutes now : ℤ)
    (hne : book ≠ [])
    (hq : ((specSelected book symbol minutes now).map
            (fun t => t.quantity)).sum ≠ 0) :
    calculate_VWSP book symbol minutes now =
      .ok (specVWSP (specSelected book symbol minutes now)) := by
  have hlen : ¬ book.length = 0 := by
    simpa [List.length_eq_zero] using hne
  have h1 := selected_map_sum (fun t => t.price * t.quantity)
    book symbol minutes now
  have h2 := selected_map_sum (fun t => t.quantity) book symbol minutes now
  simp only [calculate_VWSP, h1, h2, if_neg hlen, if_neg hq, specVWSP]

theorem keepEntry_congr (symbol : String) (minutes now : ℤ)
    (e1 e2 : ℤ × Trade) (ht : e1.1 = e2.1) (hs : e1.2.stock = e2.2.stock) :
    keepEntry symbol minutes now e1 = keepEntry symbol minutes now e2 := by
  unfold keepEntry
  rw [ht, hs]

theorem sameExceptSide_length : ∀ (b1 b2 : Book),
    sameExceptSide b1 b2 = true → b1.length = b2.length
  | [], [], _ => rfl
  | [], _ :: _, h => by simp [sameExceptSide] at h
  | _ :: _, [], h => by simp [sameExceptSide] at h
  | e1 :: r1, e2 :: r2, h => by
      simp only [sameExceptSide, decide_eq_true_eq] at h
      simp [sameExceptSide_length r1 r2 h.2.2.2.2.2]

theorem sameExceptSide_filter_sums : ∀ (b1 b2 : Book),
    sameExceptSide b1 b2 = true →
    ∀ (symbol : String) (minutes now : ℤ),
      ((b1.filter (keepEntry symbol minutes now)).map
          (fun e => e.2.price * e.2.quantity)).sum =
        ((b2.filter (keepEntry symbol minutes now)).map
          (fun e => e.2.price * e.2.quantity)).sum ∧
      ((b1.filter (keepEntry symbol minutes now)).map
          (fun e => e.2.quantity)).sum =
        ((b2.filter (keepEntry symbol minutes now)).map
          (fun e => e.2.quantity)).sum
  | [], [], _, _, _, _ => ⟨rfl, rfl⟩
  | [], _ :: _, h, _, _, _ => by simp [sameExceptSide] at h
  | _ :: _, [], h, _, _, _ => by simp [sameExceptSide] at h
  | e1 :: r1, e2 :: r2, h, symbol, minutes, now => by
      simp only [sameExceptSide, decide_eq_true_eq] at h
      obtain ⟨ht, hs, _, hq, hp, hrest⟩ := h
      have hk := keepEntry_congr symbol minutes now e1 e2 ht hs
      obtain ⟨ih1, ih2⟩ :=
        sameExceptSide_filter_sums r1 r2 hrest symbol minutes now
      by_cases hke : keepEntry symbol minutes now e2 = true
      · constructor <;>
          simp [List.filter_cons, hk, hke, hq, hp, ih1, ih2]
      · have hke' : keepEntry symbol minutes now e2 = false :=
          Bool.eq_false_iff.mpr hke
        constructor <;>
          simp [List.filter_cons, hk, hke', ih1, ih2]

/-- Sums over the spec's selection restated over the underlying filtered
entry list. -/
theorem specSelected_sum_eq (u : Trade → ℤ) (book : Book) (symbol : String)
    (minutes now : ℤ) :
    ((specSelected book symbol minutes now).map u).sum =
      ((book.filter (keepEntry symbol minutes now)).map
        (fun e => u e.2)).sum := by
  simp only [specSelected, List.map_map]
  rfl

theorem sameExceptSide_selected_sums (b1 b2 : Book)
    (h : sameExceptSide b1 b2 = true) (symbol : String) (minutes now : ℤ) :
    ((specSelected b1 symbol minutes now).map
        (fun t => t.price * t.quantity)).sum =
      ((specSelected b2 symbol minutes now).map
        (fun t => t.price * t.quantity)).sum ∧
    ((specSelected b1 symbol minutes now).map (fun t => t.quantity)).sum =
      ((specSelected b2 symbol minutes now).map (fun t => t.quantity)).sum := by
  obtain ⟨h1, h2⟩ := sameExceptSide_filter_sums b1 b2 h symbol minutes now
  constructor
  · rw [specSelected_sum_eq, specSelected_sum_eq]
    exact h1
  · rw [specSelected_sum_eq, specSelected_sum_eq]
    exact h2

theorem sameExceptSide_vwsp (b1 b2 : Book)
    (h : sameExceptSide b1 b2 = true) (symbol : String) (minutes now : ℤ) :
    calculate_VWSP b1 symbol minutes now =
      calculate_VWSP b2 symbol minutes now := by
  have hlen := sameExceptSide_length b1 b2 h
  obtain ⟨hpq, hq⟩ := sameExceptSide_selected_sums b1 b2 h symbol minutes now
  have h1a := selected_map_sum (fun t => t.price * t.quantity)
    b1 symbol minutes now
  have h1b := selected_map_sum (fun t => t.quantity) b1 symbol minutes now
  have h2a := selected_map_sum (fun t => t.price * t.quantity)
    b2 symbol minutes now
  have h2b := selected_map_sum (fun t => t.quantity) b2 symbol minutes now
  simp only [calculate_VWSP, h1a, h1b, h2a, h2b, hpq, hq, hlen]

theorem sameExceptSide_mapM (b1 b2 : Book)
    (hb : sameExceptSide b1 b2 = true) (now : ℤ) :
    ∀ (l1 l2 : Book), sameExceptSide l1 l2 = true →
      l1.mapM (fun e => calculate_VWSP b1 e.2.stock.symbol 0 now) =
        l2.mapM (fun e => calculate_VWSP b2 e.2.stock.symbol 0 now)
  | [], [], _ => rfl
  | [], _ :: _, h => by simp [sameExceptSide] at h
  | _ :: _, [], h => by simp [sameExceptSide] at h
  | e1 :: r1, e2 :: r2, h => by
      simp only [sameExceptSide, decide_eq_true_eq] at h
      obtain ⟨_, hs, _, _, _, hrest⟩ := h
      rw [List.mapM_cons, List.mapM_cons, hs,
        sameExceptSide_vwsp b1 b2 hb e2.2.stock.symbol 0 now,
        sameExceptSide_mapM b1 b2 hb now r1 r2 hrest]

theorem sameExceptSide_indexPrices (b1 b2 : Book)
    (hb : sameExceptSide b1 b2 = true) (now : ℤ) :
    indexPricesE b1 now = indexPricesE b2 now :=
  sameExceptSide_mapM b1 b2 hb now b1 b2 hb

theorem roundHalfEven_nonneg (q : ℚ) (hq : 0 ≤ q) : 0 ≤ roundHalfEven q := by
  have h0 : (0 : ℤ) ≤ ⌊q⌋ := Int.floor_nonneg.mpr hq
  simp only [roundHalfEven]
  split_ifs <;> omega

theorem round4_nonneg (q : ℚ) (hq : 0 ≤ q) : 0 ≤ round4 q := by
  unfold round4
  have h := roundHalfEven_nonneg (q * 10000) (by positivity)
  have h' : (0 : ℚ) ≤ (roundHalfEven (q * 10000) : ℚ) := by exact_mod_cast h
  positivity

/-- Every trade in the spec's selection comes from an entry of the book. -/
theorem specSelected_mem (book : Book) (symbol : String) (minutes now : ℤ)
    (t : Trade) (ht : t ∈ specSelected book symbol minutes now) :
    ∃ e ∈ book, e.2 = t := by
  unfold specSelected at ht
  obtain ⟨e, he, rfl⟩ := List.mem_map.mp ht
  exact ⟨e, (List.mem_filter.mp he).1, rfl⟩

/-- An entry's own trade belongs to the all-time selection for its own
symbol. -/
theorem mem_specSelected_self (book : Book) (e : ℤ × Trade) (he : e ∈ book)
    (now : ℤ) :
    e.2 ∈ specSelected book e.2.stock.symbol 0 now := by
  unfold specSelected
  refine List.mem_map.mpr ⟨e, List.mem_filter.mpr ⟨he, ?_⟩, rfl⟩
  simp [keepEntry]

/-- The all-time selection does not depend on the query time. -/
theorem specSelected_zero_now (book : Book) (symbol : String) (now : ℤ) :
    specSelected book symbol 0 now = specSelected book symbol 0 0 := by
  unfold specSelected
  rw [keepEntry_nonpos symbol 0 now (by norm_num),
    keepEntry_nonpos symbol 0 0 (by norm_num)]

/-- Under the book invariant, the selected quantities sum to a positive
total whenever the selecting entry is in the book. -/
theorem specSelected_qsum_pos (book : Book) (hinv : BookInv book)
    (e : ℤ × Trade) (he : e ∈ book) (now : ℤ) :
    0 < ((specSelected book e.2.stock.symbol 0 now).map
          (fun t => t.quantity)).sum := by
  apply List.sum_pos
  · intro x hx
    obtain ⟨t, htmem, rfl⟩ := List.mem_map.mp hx
    obtain ⟨e', he', rfl⟩ :=
      specSelected_mem book e.2.stock.symbol 0 now t htmem
    exact lt_of_lt_of_le one_pos (hinv e' he').2
  · have hm := mem_specSelected_self book e he now
    intro hnil
    rw [List.map_eq_nil_iff] at hnil
    rw [hnil] at hm
    cases hm

/-- Under the invariant, `calculate_VWSP` at `minutes = 0` returns the
all-time VWSP of the entry's symbol, for any entry of the book. -/
theorem vwsp_all_time (book : Book) (hinv : BookInv book) (e : ℤ × Trade)
    (he : e ∈ book) (now : ℤ) :
    calculate_VWSP book e.2.stock.symbol 0 now =
      .ok (allTimeVWSP book e.2.stock.symbol) := by
  have hpos := specSelected_qsum_pos book hinv e he now
  have h := vwsp_ok book e.2.stock.symbol 0 now
    (List.ne_nil_of_mem he) (ne_of_gt hpos)
  rw [h]
  unfold allTimeVWSP
  rw [specSelected_zero_now book e.2.stock.symbol now]

theorem mapM_ok_of_forall {α β ε : Type} (f : α → Except ε β) (g : α → β) :
    ∀ l : List α, (∀ a ∈ l, f a = .ok (g a)) → l.mapM f = .ok (l.map g)
  | [], _ => rfl
  | a :: l, h => by
      rw [List.mapM_cons, h a (List.mem_cons_self a l),
        mapM_ok_of_forall f g l (fun x hx => h x (List.mem_cons_of_mem a hx))]
      rfl

/-- Under the invariant, the index's per-trade price list is exactly one
all-time VWSP per trade of the current book. -/
theorem indexPricesE_ok (book : Book) (hinv : BookInv book) (now : ℤ) :
    indexPricesE book now =
      .ok (book.map (fun e => allTimeVWSP book e.2.stock.symbol)) :=
  mapM_ok_of_forall _ _ book (fun e he => vwsp_all_time book hinv e he now)

/-- Characterisation of `all_stock_index` on a non-empty book satisfying
the invariant: the result is the rounded geometric mean of the per-trade
all-time VWSP list. -/
theorem all_stock_index_ok (book : Book) (hinv : BookInv book)
    (hne : book ≠ []) (now : ℤ) (r : Except MarketError ℝ)
    (hr : all_stock_index book now r) :
    ∃ v : ℝ, r = .ok v ∧
      isRound4R
        ((((book.map (fun e => allTimeVWSP book e.2.stock.symbol)).map
            (fun q => ((q : ℚ) : ℝ))).prod) ^
          ((1 : ℝ) / ((book.length : ℕ) : ℝ))) v := by
  have hlen : ¬ book.length = 0 := by
    simpa [List.length_eq_zero] using hne
  unfold all_stock_index at hr
  rw [if_neg hlen, indexPricesE_ok book hinv now] at hr
  obtain ⟨v, hv, hr4⟩ := hr
  refine ⟨v, hv, ?_⟩
  rw [List.length_map] at hr4
  exact hr4

/-- Under the invariant every all-time VWSP is non-negative. -/
theorem allTimeVWSP_nonneg (book : Book) (hinv : BookInv book)
    (symbol : String) : 0 ≤ allTimeVWSP book symbol := by
  unfold allTimeVWSP specVWSP
  apply round4_nonneg
  apply div_nonneg
  · have : (0 : ℤ) ≤ ((specSelected book symbol 0 0).map
        (fun t => t.price * t.quantity)).sum := by
      apply List.sum_nonneg
      intro x hx
      obtain ⟨t, htmem, rfl⟩ := List.mem_map.mp hx
      obtain ⟨e', he', rfl⟩ := specSelected_mem book symbol 0 0 t htmem
      have h1 := (hinv e' he').1
      have h2 := (hinv e' he').2
      nlinarith
    exact_mod_cast this
  · have : (0 : ℤ) ≤ ((specSelected book symbol 0 0).map
        (fun t => t.quantity)).sum := by
      apply List.sum_nonneg
      intro x hx
      obtain ⟨t, htmem, rfl⟩ := List.mem_map.mp hx
      obtain ⟨e', he', rfl⟩ := specSelected_mem book symbol 0 0 t htmem
      exact le_trans zero_le_one (hinv e' he').2
    exact_mod_cast this

/-! ## Claims -/

/-- C1: for every non-empty trade book (with a selection of non-zero total
quantity, the case where the division is defined), `calculate_VWSP(symbol,
minutes)` returns `round(Σ(price × quantity) / Σ(quantity), 4)` over the
selected entries, where for `minutes > 0` the selection is exactly the
entries with timestamp at least `now - minutes` and matching symbol, and
for `minutes ≤ 0` it is all entries matching the symbol regardless of
age. -/
theorem C1_calculate_VWSP (book : Book) (symbol : String) (minutes now : ℤ)
    (hne : book ≠ [])
    (hq : ((specSelected book symbol minutes now).map
            (fun t => t.quantity)).sum ≠ 0) :
    calculate_VWSP book symbol minutes now =
      .ok (round4
        (((((specSelected book symbol minutes now).map
              (fun t => t.price * t.quantity)).sum : ℤ) : ℚ) /
         ((((specSelected book symbol minutes now).map
              (fun t => t.quantity)).sum : ℤ) : ℚ))) :=
  vwsp_ok book symbol minutes now hne hq

/-- C1 witness: the spec's test vector — five ALE trades, quantity 10,
price 100, all within the window — yields VWSP 100. -/
theorem C1_witness :
    calculate_VWSP demoBook "ALE" 5 100 = .ok 100 := by
  have h := C1_calculate_VWSP demoBook "ALE" 5 100 (by decide) (by decide)
  rw [h]
  have hsel : ((((specSelected demoBook "ALE" 5 100).map
      (fun t => t.price * t.quantity)).sum : ℤ) : ℚ) /
      ((((specSelected demoBook "ALE" 5 100).map
      (fun t => t.quantity)).sum : ℤ) : ℚ) = ((100 : ℤ) : ℚ) := by
    norm_num [specSelected, demoBook, aleStock, keepEntry]
  rw [hsel, round4_intCast]
  norm_num

/-- C4: `book_trade` with `quantity < 1` or `price < 1` fails with
InvalidArgument and leaves the shared trade book unchanged. -/
theorem C4_book_trade_invalid (book : Book) (stock : Stock) (side : String)
    (quantity price now : ℤ) (h : quantity < 1 ∨ price < 1) :
    book_trade book stock side quantity price now =
      (some .invalidArgument, book) := by
  unfold book_trade
  rw [if_pos h]

/-- C4 witness: booking with quantity 0 and price 0 into the demo book
fails and returns the book unchanged. -/
theorem C4_witness :
    book_trade demoBook aleStock "Sell" 0 0 101 =
      (some .invalidArgument, demoBook) :=
  C4_book_trade_invalid demoBook aleStock "Sell" 0 0 101 (by decide)

/-- C6: on a book with zero entries, `calculate_VWSP` fails with
EmptyMarket for every symbol and every minutes value, and
`all_stock_index` fails with EmptyMarket. -/
theorem C6_empty_market :
    (∀ (symbol : String) (minutes now : ℤ),
        calculate_VWSP [] symbol minutes now = .error .emptyMarket) ∧
    ∀ (now : ℤ) (r : Except MarketError ℝ),
      all_stock_index [] now r → r = .error .emptyMarket := by
  refine ⟨fun _ _ _ => rfl, fun now r h => ?_⟩
  simpa [all_stock_index] using h

/-- C6 witness: both failures at concrete inputs. -/
theorem C6_witness :
    calculate_VWSP [] "ALE" 5 0 = .error .emptyMarket ∧
    (Except.error .emptyMarket : Except MarketError ℝ) =
      .error .emptyMarket :=
  ⟨C6_empty_market.1 "ALE" 5 0,
   C6_empty_market.2 0 (.error .emptyMarket) (by simp [all_stock_index])⟩

/-- C7: on a non-empty book, a query whose selected set is empty does not
raise EmptyMarket or any distinct error of its own — it reaches the
zero-by-zero division and propagates the resulting division error. -/
theorem C7_empty_selection (book : Book) (symbol : String)
    (minutes now : ℤ) (hne : book ≠ [])
    (hsel : selectedTrades book symbol minutes now = []) :
    calculate_VWSP book symbol minutes now = .error .divisionByZero := by
  have hlen : ¬ book.length = 0 := by
    simpa [List.length_eq_zero] using hne
  simp [calculate_VWSP, hsel, if_neg hlen]
  exact hne

/-- C7 witness: querying GIN on a book holding only ALE trades hits the
zero-by-zero division. -/
theorem C7_witness :
    calculate_VWSP demoBook "GIN" 5 100 = .error .divisionByZero :=
  C7_empty_selection demoBook "GIN" 5 100 (by decide) (by decide)

/-- C8: every entry ever present in the shared book has price ≥ 1 and
quantity ≥ 1: the invariant holds for the empty book and is preserved by
`book_trade`, the only operation that modifies the book. -/
theorem C8_book_invariant :
    BookInv [] ∧
    ∀ (book : Book) (stock : Stock) (side : String)
      (quantity price now : ℤ), BookInv book →
        BookInv (book_trade book stock side quantity price now).2 := by
  constructor
  · intro e he
    cases he
  · intro book stock side q p now hinv
    unfold book_trade
    by_cases h : q < 1 ∨ p < 1
    · rw [if_pos h]
      exact hinv
    · rw [if_neg h]
      push_neg at h
      intro e he
      rcases List.mem_append.mp he with h1 | h2
      · exact hinv e h1
      · rcases List.mem_singleton.mp h2 with rfl
        exact ⟨h.2, h.1⟩

/-- C3 counterexample: the claim says a Preferred stock whose
fixed_dividend is absent yields 0.0; the code falls through its
`if self.fixed_dividend is not None` guard and returns `None` instead. -/
theorem C3_counterexample :
    Stock.get_dividend_yield ⟨"GIN", 100, "Preferred", some 8, none⟩ 90 ≠
      .ok (some 0) := by
  decide

/-- C3 (amended): `get_dividend_yield(price)` fails with InvalidArgument
when price ≤ 0; for price > 0, if type = Preferred it returns no value
(`None`) when fixed_dividend is absent, 0.0 when fixed_dividend ≤ 0 and
`round(fixed_dividend × par_value / price, 4)` otherwise, and if type =
Common it returns no value when last_dividend is absent, 0.0 when
last_dividend ≤ 0 and `round(last_dividend / price, 4)` otherwise; the
call has no side effects (the embedding is a pure function). -/
theorem C3_dividend_yield (s : Stock) (price : ℤ) :
    (price ≤ 0 →
      s.get_dividend_yield price = .error .invalidArgument) ∧
    (0 < price → s.type = "Preferred" →
      (s.fixed_dividend = none → s.get_dividend_yield price = .ok none) ∧
      (∀ fd, s.fixed_dividend = some fd →
        s.get_dividend_yield price =
          .ok (some (if fd ≤ 0 then 0
                     else round4 ((fd * (s.par_value : ℚ)) /
                                  ((price : ℚ))))))) ∧
    (0 < price → s.type = "Common" →
      (s.last_dividend = none → s.get_dividend_yield price = .ok none) ∧
      (∀ ld, s.last_dividend = some ld →
        s.get_dividend_yield price =
          .ok (some (if ld ≤ 0 then 0
                     else round4 ((((ld : ℤ) : ℚ)) / ((price : ℚ))))))) := by
  refine ⟨fun hp => ?_, fun hp htype => ?_, fun hp htype => ?_⟩
  · unfold Stock.get_dividend_yield
    rw [if_pos hp]
  · have hp' : ¬ price ≤ 0 := not_le.mpr hp
    unfold Stock.get_dividend_yield
    rw [if_neg hp', if_pos htype]
    exact ⟨fun hfd => by rw [hfd], fun fd hfd => by rw [hfd]⟩
  · have hp' : ¬ price ≤ 0 := not_le.mpr hp
    have htype' : ¬ s.type = "Preferred" := by
      rw [htype]
      decide
    unfold Stock.get_dividend_yield
    rw [if_neg hp', if_neg htype']
    exact ⟨fun hld => by rw [hld], fun ld hld => by rw [hld]⟩

/-- C3 witness: a Preferred stock with absent fixed_dividend yields no
value at price 90, and a Common stock with zero last_dividend yields 0.0
at price 90. -/
theorem C3_witness :
    Stock.get_dividend_yield ⟨"GIN", 100, "Preferred", some 8, none⟩ 90 =
      .ok none ∧
    Stock.get_dividend_yield ⟨"TEA", 100, "Common", some 0, some 0⟩ 90 =
      .ok (some 0) := by
  constructor
  · exact ((C3_dividend_yield ⟨"GIN", 100, "Preferred", some 8, none⟩
      90).2.1 (by decide) rfl).1 rfl
  · have h := ((C3_dividend_yield ⟨"TEA", 100, "Common", some 0, some 0⟩
      90).2.2 (by decide) rfl).2 0 rfl
    simpa using h

/-- C8 witness: a successful booking into the demo book preserves the
invariant. -/
theorem C8_witness :
    BookInv (book_trade demoBook aleStock "Buy" 2 3 101).2 :=
  C8_book_invariant.2 demoBook aleStock "Buy" 2 3 101
    (by unfold BookInv; decide)

/-- C10: the results of `calculate_VWSP` and `all_stock_index` never
depend on the `buy_or_sell` side of any trade: two books identical except
for that field give identical results for both queries. -/
theorem C10_side_independence (b1 b2 : Book)
    (h : sameExceptSide b1 b2 = true) :
    (∀ (symbol : String) (minutes now : ℤ),
        calculate_VWSP b1 symbol minutes now =
          calculate_VWSP b2 symbol minutes now) ∧
    ∀ (now : ℤ) (r : Except MarketError ℝ),
      all_stock_index b1 now r ↔ all_stock_index b2 now r := by
  refine ⟨sameExceptSide_vwsp b1 b2 h, fun now r => ?_⟩
  unfold all_stock_index
  rw [sameExceptSide_length b1 b2 h, sameExceptSide_indexPrices b1 b2 h now]

/-- C10 witness: flipping the single trade's side from Buy to Sell leaves
the VWSP unchanged. -/
theorem C10_witness :
    calculate_VWSP wBookBuy "ALE" 5 0 = calculate_VWSP wBookSell "ALE" 5 0 :=
  (C10_side_independence wBookBuy wBookSell (by decide)).1 "ALE" 5 0

theorem allTimeVWSP_wBookBuy : allTimeVWSP wBookBuy "ALE" = 100 := by
  have h : specSelected wBookBuy "ALE" 0 0 =
      [⟨aleStock, 0, 10, "Buy", 100⟩] := rfl
  have h100 := round4_intCast 100
  push_cast at h100
  unfold allTimeVWSP specVWSP
  rw [h]
  norm_num [h100]

theorem allTimeVWSP_wBookTea : allTimeVWSP wBookTea "TEA" = 90 := by
  have h : specSelected wBookTea "TEA" 0 0 =
      [⟨teaStock, 0, 3, "Buy", 90⟩] := rfl
  have h90 := round4_intCast 90
  push_cast at h90
  unfold allTimeVWSP specVWSP
  rw [h]
  norm_num [h90]

/-- C2: for every non-empty shared trade book (satisfying the booking
invariant), `all_stock_index()` returns — within the 4-decimal rounding
relation — the geometric mean `(Π values) ^ (1 / count)` of the list
containing, for every trade currently in the shared book, the all-time
VWSP of that trade's stock symbol; a symbol's VWSP appears once per trade
of that symbol (the exponent is `1 / book.length`, not one per distinct
symbol). -/
theorem C2_all_stock_index (book : Book) (now : ℤ)
    (r : Except MarketError ℝ) (hinv : BookInv book) (hne : book ≠ [])
    (hr : all_stock_index book now r) :
    ∃ v : ℝ, r = .ok v ∧
      isRound4R
        ((((book.map (fun e => allTimeVWSP book e.2.stock.symbol)).map
            (fun q : ℚ => (q : ℝ))).prod) ^
          ((1 : ℝ) / ((book.length : ℕ) : ℝ))) v :=
  all_stock_index_ok book hinv hne now r hr

/-- C2 witness: on the one-trade book the index call returns 100, the
rounded geometric mean of the one-element per-trade VWSP list. -/
theorem C2_witness :
    ∃ v : ℝ, (Except.ok (100 : ℝ) : Except MarketError ℝ) = .ok v ∧
      isRound4R
        ((((wBookBuy.map (fun e => allTimeVWSP wBookBuy e.2.stock.symbol)).map
            (fun q : ℚ => (q : ℝ))).prod) ^
          ((1 : ℝ) / ((wBookBuy.length : ℕ) : ℝ))) v := by
  apply C2_all_stock_index wBookBuy 0 (.ok (100 : ℝ))
  · unfold BookInv
    decide
  · decide
  · have hprices : indexPricesE wBookBuy 0 = .ok [(100 : ℚ)] := by
      rw [indexPricesE_ok wBookBuy (by unfold BookInv; decide) 0]
      have hmap : wBookBuy.map
          (fun e => allTimeVWSP wBookBuy e.2.stock.symbol) =
          [allTimeVWSP wBookBuy "ALE"] := rfl
      rw [hmap, allTimeVWSP_wBookBuy]
    unfold all_stock_index
    rw [hprices, if_neg (by decide)]
    refine ⟨(100 : ℝ), rfl, ⟨1000000, by norm_num, ?_⟩⟩
    norm_num [Real.rpow_one]

/-- C5: all market and exchange instances operate on the one shared trade
book (instances store only an alias to the class-level list, so the
embedding threads a single explicit book): a successful booking through
any instance appends the trade to that book; a later `calculate_VWSP`
selection from any other instance contains the new trade; and an index
call made after the booking — regardless of when the exchange object was
constructed, construction capturing no snapshot — gathers one all-time
VWSP per trade of the current book, including the new trade. -/
theorem C5_shared_live_book (book : Book) (stock : Stock) (side : String)
    (q p now now2 : ℤ) (hinv : BookInv book) (hq : 1 ≤ q) (hp : 1 ≤ p) :
    ∃ t : Trade, t.stock = stock ∧
      book_trade book stock side q p now = (none, book ++ [(now, t)]) ∧
      specSelected (book ++ [(now, t)]) stock.symbol 0 now2 =
        specSelected book stock.symbol 0 now2 ++ [t] ∧
      indexPricesE (book ++ [(now, t)]) now2 =
        .ok ((book ++ [(now, t)]).map
          (fun e => allTimeVWSP (book ++ [(now, t)]) e.2.stock.symbol)) ∧
      ((book ++ [(now, t)]).map
          (fun e => allTimeVWSP (book ++ [(now, t)]) e.2.stock.symbol)).length
        = book.length + 1 := by
  refine ⟨⟨stock, now, q, side, p⟩, rfl, ?_, ?_, ?_, ?_⟩
  · unfold book_trade
    rw [if_neg (by omega)]
  · unfold specSelected
    rw [List.filter_append, List.map_append]
    have hkeep : List.filter (keepEntry stock.symbol 0 now2)
        [(now, (⟨stock, now, q, side, p⟩ : Trade))] =
        [(now, (⟨stock, now, q, side, p⟩ : Trade))] := by
      simp [List.filter, keepEntry]
    rw [hkeep]
    simp
  · have hinv' : BookInv (book ++ [(now, (⟨stock, now, q, side, p⟩ : Trade))]) := by
      intro e he
      rcases List.mem_append.mp he with h1 | h2
      · exact hinv e h1
      · rcases List.mem_singleton.mp h2 with rfl
        exact ⟨hp, hq⟩
    exact indexPricesE_ok _ hinv' now2
  · simp [List.length_map, List.length_append]

/-- C5 witness: booking one more ALE trade into the five-trade demo book
appends it; the all-time selection for ALE gains the trade; and the index
price list over the updated book has six entries. -/
theorem C5_witness :
    ∃ t : Trade, t.stock = aleStock ∧
      book_trade demoBook aleStock "Buy" 2 3 101 =
        (none, demoBook ++ [(101, t)]) ∧
      specSelected (demoBook ++ [(101, t)]) aleStock.symbol 0 101 =
        specSelected demoBook aleStock.symbol 0 101 ++ [t] ∧
      indexPricesE (demoBook ++ [(101, t)]) 101 =
        .ok ((demoBook ++ [(101, t)]).map
          (fun e : ℤ × Trade =>
            allTimeVWSP (demoBook ++ [(101, t)]) e.2.stock.symbol)) ∧
      ((demoBook ++ [(101, t)]).map
          (fun e : ℤ × Trade =>
            allTimeVWSP (demoBook ++ [(101, t)])
              e.2.stock.symbol)).length = demoBook.length + 1 :=
  C5_shared_live_book demoBook aleStock "Buy" 2 3 101 101
    (by unfold BookInv; decide) (by decide) (by decide)

/-- C9: for every non-empty trade book (satisfying the booking invariant)
in which all the per-trade all-time VWSP values gathered by
`all_stock_index` are equal to the same value `v`, the index call returns
`v` within 4-decimal rounding. -/
theorem C9_all_equal (book : Book) (now : ℤ) (v : ℚ)
    (r : Except MarketError ℝ) (hinv : BookInv book) (hne : book ≠ [])
    (hall : ∀ e ∈ book, allTimeVWSP book e.2.stock.symbol = v)
    (hr : all_stock_index book now r) :
    ∃ u : ℝ, r = .ok u ∧ |u - ((v : ℚ) : ℝ)| ≤ 1 / 20000 := by
  obtain ⟨u, hru, k, huk, hk⟩ := all_stock_index_ok book hinv hne now r hr
  obtain ⟨e0, he0⟩ : ∃ e, e ∈ book := by
    cases book with
    | nil => exact absurd rfl hne
    | cons a l => exact ⟨a, List.mem_cons_self a l⟩
  have hv0 : (0 : ℚ) ≤ v := by
    rw [← hall e0 he0]
    exact allTimeVWSP_nonneg book hinv e0.2.stock.symbol
  have hvR : (0 : ℝ) ≤ ((v : ℚ) : ℝ) := by exact_mod_cast hv0
  have hallR : ∀ x ∈ (book.map
      (fun e => allTimeVWSP book e.2.stock.symbol)).map
      (fun q : ℚ => (q : ℝ)), x = ((v : ℚ) : ℝ) := by
    intro x hx
    obtain ⟨qq, hqq, rfl⟩ := List.mem_map.mp hx
    obtain ⟨e, he, rfl⟩ := List.mem_map.mp hqq
    rw [hall e he]
  have hlen2 : ((book.map (fun e => allTimeVWSP book e.2.stock.symbol)).map
      (fun q : ℚ => (q : ℝ))).length = book.length := by
    simp [List.length_map]
  have hprod := List.prod_eq_pow_card _ _ hallR
  rw [hlen2] at hprod
  have hn0 : book.length ≠ 0 := by
    simpa [List.length_eq_zero] using hne
  have hnR : ((book.length : ℕ) : ℝ) ≠ 0 := by exact_mod_cast hn0
  have hx : (((v : ℚ) : ℝ) ^ book.length) ^
      ((1 : ℝ) / ((book.length : ℕ) : ℝ)) = ((v : ℚ) : ℝ) := by
    rw [← Real.rpow_natCast (((v : ℚ) : ℝ)) book.length,
      ← Real.rpow_mul hvR, mul_one_div, div_self hnR, Real.rpow_one]
  rw [hprod, hx] at hk
  refine ⟨u, hru, ?_⟩
  rw [huk]
  rw [abs_le] at hk
  rw [abs_le]
  constructor <;> linarith

/-- C9 witness: on the one-trade TEA book every per-trade all-time VWSP
is 90 and the index call returns 90. -/
theorem C9_witness :
    ∃ u : ℝ, (Except.ok (90 : ℝ) : Except MarketError ℝ) = .ok u ∧
      |u - (((90 : ℚ)) : ℝ)| ≤ 1 / 20000 := by
  apply C9_all_equal wBookTea 0 90 (.ok (90 : ℝ))
  · unfold BookInv
    decide
  · decide
  · intro e he
    rcases List.mem_singleton.mp he with rfl
    exact allTimeVWSP_wBookTea
  · have hprices : indexPricesE wBookTea 0 = .ok [(90 : ℚ)] := by
      rw [indexPricesE_ok wBookTea (by unfold BookInv; decide) 0]
      have hmap : wBookTea.map
          (fun e => allTimeVWSP wBookTea e.2.stock.symbol) =
          [allTimeVWSP wBookTea "TEA"] := rfl
      rw [hmap, allTimeVWSP_wBookTea]
    unfold all_stock_index
    rw [hprices, if_neg (by decide)]
    refine ⟨(90 : ℝ), rfl, ⟨900000, by norm_num, ?_⟩⟩
    norm_num [Real.rpow_one]

end SSSM
